import Mathlib

/-!
Verification development for the opencode-switch configuration manager.

The file shallow-embeds the modules that the checked claims refer to:

* the encryption service (`src/server/services/encryptionService.js`,
  bundled in `routes/config.js`): envelope construction, hex codec,
  colon splitting, and the AES-256-GCM cipher modelled structurally
  (counter-mode keystream XOR plus a deterministic authentication tag
  over key, IV and ciphertext; the tag model detects every single-byte
  modification of a same-length ciphertext, matching GCM with a
  non-degenerate hash key);
* the configuration store (`src/server/services/configService.js`):
  disk document, read cache with TTL, provider CRUD, modelled as explicit
  state passing with a reliable file system on the success paths;
* the model service (`src/server/services/modelService.js`): URL
  normalization, discovery fallback over two endpoints, response-shape
  tolerant content extraction over a small JSON value type;
* the validator (`src/server/utils/validator.js`).

External runtime primitives (Node Buffer hex codec, JSON.parse and
JSON.stringify, the WHATWG URL parser, UTF-8 transcoding) are modelled
by executable stand-ins that agree with the runtime on every input the
theorems and witnesses exercise; each stand-in is commented at its
definition site.
-/

namespace OCS

/-! ## Hex codec (Node Buffer toString and from with hex encoding) -/

/-- Lower-case hex digit for a value below 16, as Buffer.toString emits. -/
def hexDigitChar : Nat → Char
  | 0 => '0' | 1 => '1' | 2 => '2' | 3 => '3' | 4 => '4'
  | 5 => '5' | 6 => '6' | 7 => '7' | 8 => '8' | 9 => '9'
  | 10 => 'a' | 11 => 'b' | 12 => 'c' | 13 => 'd' | 14 => 'e' | 15 => 'f'
  | _ => '0'

/-- Hex encoding of a byte list, two lower-case digits per byte. -/
def bytesToHex : List Nat → List Char
  | [] => []
  | b :: bs => hexDigitChar (b / 16) :: hexDigitChar (b % 16) :: bytesToHex bs

/-- Value of a hex digit, upper or lower case, as Buffer.from accepts. -/
def hexVal? (c : Char) : Option Nat :=
  if 48 ≤ c.toNat ∧ c.toNat ≤ 57 then some (c.toNat - 48)
  else if 97 ≤ c.toNat ∧ c.toNat ≤ 102 then some (c.toNat - 87)
  else if 65 ≤ c.toNat ∧ c.toNat ≤ 70 then some (c.toNat - 55)
  else none

/-- Hex decoding with the semantics of Buffer.from(s, hex): digits are
consumed two at a time and decoding stops at the first pair containing a
non-hex character; a trailing odd digit is dropped. -/
def hexToBytesJS : List Char → List Nat
  | c1 :: c2 :: rest =>
    match hexVal? c1, hexVal? c2 with
    | some h, some l => (h * 16 + l) :: hexToBytesJS rest
    | _, _ => []
  | _ => []

/-! ## Splitting on the envelope delimiter (String.prototype.split) -/

/-- Split a character list at every colon, as the source splits the
envelope with String.split. The result is never empty. -/
def splitOnColon : List Char → List (List Char)
  | [] => [[]]
  | c :: rest =>
    if c = ':' then [] :: splitOnColon rest
    else
      match splitOnColon rest with
      | [] => [[c]]
      | h :: t => (c :: h) :: t

/-! ## Structural model of the AES-256-GCM cipher

GCM encrypts in counter mode: byte i of the ciphertext is byte i of the
plaintext XORed with a keystream byte that depends only on the key, the
IV and the position. The authentication tag is a deterministic function
of key, IV and ciphertext which, for a non-degenerate hash subkey,
differs whenever a single byte of a same-length ciphertext differs.
The model below realizes exactly those structural properties with an
executable keystream and a polynomial accumulator modulo an odd modulus
larger than any byte value. -/

/-- Modulus of the tag accumulator: odd (so 256 is invertible) and below
2 to the 128, so the accumulator fits the 16 tag bytes. -/
def macP : Nat := 2 ^ 127 - 1

/-- One accumulator step of the tag function. -/
def macStep (h b : Nat) : Nat := (h * 256 + b) % macP

/-- Tag accumulator over a byte list. -/
def macAcc (h : Nat) : List Nat → Nat
  | [] => h
  | b :: bs => macAcc (macStep h b) bs

/-- Tag value over key, IV and ciphertext. -/
def macVal (key iv ct : List Nat) : Nat := macAcc (macAcc (macAcc 1 key) iv) ct

/-- Little-endian byte expansion with a fixed width. -/
def toBytesLE : Nat → Nat → List Nat
  | 0, _ => []
  | n + 1, v => v % 256 :: toBytesLE n (v / 256)

/-- Value of a little-endian byte list. -/
def fromBytesLE : List Nat → Nat
  | [] => 0
  | b :: bs => b + 256 * fromBytesLE bs

/-- The 16-byte authentication tag of the modelled cipher. -/
def macBytes (key iv ct : List Nat) : List Nat := toBytesLE 16 (macVal key iv ct)

/-- Keystream byte at a position, a function of key and IV only. -/
def ksByte (key iv : List Nat) (i : Nat) : Nat :=
  (macAcc (macAcc 3 key) iv + 131 * i) % 256

/-- Counter-mode stream transform starting at a given position; applying
it twice from the same position is the identity. -/
def xorStream (key iv : List Nat) : Nat → List Nat → List Nat
  | _, [] => []
  | i, b :: bs => (b ^^^ ksByte key iv i) :: xorStream key iv (i + 1) bs

/-! ## EncryptionService.encrypt and EncryptionService.decrypt -/

/-- Result of EncryptionService.decrypt. The source returns the input
string unchanged (passthrough), a decrypted plaintext string, or null.
Plaintext is represented by its byte list; the UTF-8 transcoding done by
Buffer is an external bijection between well-formed strings and their
byte lists. -/
inductive DecryptResult where
  | passthrough (s : String)
  | plaintext (bs : List Nat)
  | nullResult
deriving DecidableEq, Repr

/-- The 4-part colon-delimited envelope salt:iv:tag:ciphertext. -/
def mkEnvelope (saltH ivH tagH ctH : List Char) : String :=
  String.mk (saltH ++ ':' :: ivH ++ ':' :: tagH ++ ':' :: ctH)

/-- The four hex parts produced by EncryptionService.encrypt on a
non-empty plaintext. -/
def encryptParts (key salt iv x : List Nat) :
    List Char × List Char × List Char × List Char :=
  let ct := xorStream key iv 0 x
  (bytesToHex salt, bytesToHex iv, bytesToHex (macBytes key iv ct), bytesToHex ct)

/-- EncryptionService.encrypt. Empty input returns null; an invalid key
length makes createCipheriv throw, caught as null; otherwise the 4-part
envelope is produced from fresh salt and IV (passed here explicitly
since the source draws them from crypto.randomBytes). -/
def encrypt (key salt iv x : List Nat) : Option String :=
  if x = [] then none
  else if key.length ≠ 32 then none
  else
    let p := encryptParts key salt iv x
    some (mkEnvelope p.1 p.2.1 p.2.2.1 p.2.2.2)

/-- EncryptionService.decrypt. Inputs without the delimiter, or not
splitting into exactly 4 parts, pass through unchanged. Otherwise the
parts are hex-decoded; a wrong key length or an empty IV makes
createDecipheriv throw and a tag that does not match the recomputed
authentication value makes final throw, both caught as null; otherwise
the counter-mode stream recovers the plaintext. -/
def decrypt (key : List Nat) (s : String) : DecryptResult :=
  if ':' ∈ s.data then
    let parts := splitOnColon s.data
    if parts.length ≠ 4 then .passthrough s
    else
      match parts with
      | [_, ivH, tagH, ctH] =>
        let iv := hexToBytesJS ivH
        let tag := hexToBytesJS tagH
        let ct := hexToBytesJS ctH
        if key.length ≠ 32 then .nullResult
        else if iv = [] then .nullResult
        else if tag ≠ macBytes key iv ct then .nullResult
        else .plaintext (xorStream key iv 0 ct)
      | _ => .passthrough s
  else .passthrough s

/-! ## Lemmas about the hex codec -/

theorem hexVal_hexDigitChar : ∀ d : Nat, d < 16 → hexVal? (hexDigitChar d) = some d := by
  decide

theorem hexDigitChar_ne_colon : ∀ d : Nat, d < 16 → hexDigitChar d ≠ ':' := by
  decide

theorem colon_not_mem_bytesToHex (bs : List Nat) (h : ∀ b ∈ bs, b < 256) :
    ':' ∉ bytesToHex bs := by
  induction bs with
  | nil => simp [bytesToHex]
  | cons b t ih =>
    have hb : b < 256 := h b (by simp)
    have h1 : hexDigitChar (b / 16) ≠ ':' :=
      hexDigitChar_ne_colon _ (Nat.div_lt_of_lt_mul (by omega))
    have h2 : hexDigitChar (b % 16) ≠ ':' :=
      hexDigitChar_ne_colon _ (Nat.mod_lt _ (by omega))
    have h3 := ih (fun x hx => h x (by simp [hx]))
    simp only [bytesToHex, List.mem_cons]
    intro hc
    rcases hc with hc | hc | hc
    · exact h1 hc.symm
    · exact h2 hc.symm
    · exact h3 hc

theorem hexToBytes_bytesToHex (bs : List Nat) (h : ∀ b ∈ bs, b < 256) :
    hexToBytesJS (bytesToHex bs) = bs := by
  induction bs with
  | nil => rfl
  | cons b t ih =>
    have hb : b < 256 := h b (by simp)
    have hdiv : b / 16 < 16 := Nat.div_lt_of_lt_mul (by omega)
    have hmod : b % 16 < 16 := Nat.mod_lt _ (by omega)
    simp only [bytesToHex, hexToBytesJS, hexVal_hexDigitChar _ hdiv,
      hexVal_hexDigitChar _ hmod]
    rw [ih (fun x hx => h x (by simp [hx]))]
    have := Nat.div_add_mod b 16
    congr 1
    omega

theorem length_bytesToHex (bs : List Nat) : (bytesToHex bs).length = 2 * bs.length := by
  induction bs with
  | nil => rfl
  | cons b t ih => simp [bytesToHex, ih]; omega

/-! ## Lemmas about splitOnColon -/

theorem splitOnColon_no_colon (a : List Char) (h : ':' ∉ a) : splitOnColon a = [a] := by
  induction a with
  | nil => rfl
  | cons c t ih =>
    have hc : c ≠ ':' := fun hc => h (by simp [hc])
    have ht : ':' ∉ t := fun hm => h (by simp [hm])
    simp only [splitOnColon, if_neg hc, ih ht]

theorem splitOnColon_append (a rest : List Char) (h : ':' ∉ a) :
    splitOnColon (a ++ ':' :: rest) = a :: splitOnColon rest := by
  induction a with
  | nil => simp [splitOnColon]
  | cons c t ih =>
    have hc : c ≠ ':' := fun hc => h (by simp [hc])
    have ht : ':' ∉ t := fun hm => h (by simp [hm])
    simp only [List.cons_append, splitOnColon, if_neg hc]
    rw [show splitOnColon (t.append (':' :: rest)) = t :: splitOnColon rest from ih ht]

theorem splitOnColon_envelope (a b c d : List Char)
    (ha : ':' ∉ a) (hb : ':' ∉ b) (hc : ':' ∉ c) (hd : ':' ∉ d) :
    splitOnColon (a ++ ':' :: b ++ ':' :: c ++ ':' :: d) = [a, b, c, d] := by
  rw [show a ++ ':' :: b ++ ':' :: c ++ ':' :: d
        = a ++ ':' :: (b ++ ':' :: (c ++ ':' :: d)) by simp]
  rw [splitOnColon_append _ _ ha, splitOnColon_append _ _ hb,
    splitOnColon_append _ _ hc, splitOnColon_no_colon _ hd]

/-! ## Lemmas about the cipher model -/

theorem macP_pos : 0 < macP := by norm_num [macP]

theorem byte_lt_macP : (256 : Nat) < macP := by norm_num [macP]

theorem macP_lt : macP < 256 ^ 16 := by norm_num [macP]

theorem gcd_macP_256 : Nat.gcd macP 256 = 1 := by decide

theorem macStep_lt (h b : Nat) : macStep h b < macP := Nat.mod_lt _ macP_pos

theorem macAcc_lt (l : List Nat) (h : Nat) (hh : h < macP) : macAcc h l < macP := by
  induction l generalizing h with
  | nil => exact hh
  | cons b t ih => exact ih _ (macStep_lt _ _)

theorem macVal_lt (key iv ct : List Nat) : macVal key iv ct < macP := by
  unfold macVal
  apply macAcc_lt
  apply macAcc_lt
  apply macAcc_lt
  exact Nat.lt_of_lt_of_le (by norm_num) (Nat.le_of_lt byte_lt_macP)

theorem toBytesLE_lt (n v : Nat) : ∀ b ∈ toBytesLE n v, b < 256 := by
  induction n generalizing v with
  | zero => simp [toBytesLE]
  | succ m ih =>
    intro b hb
    simp only [toBytesLE, List.mem_cons] at hb
    rcases hb with hb | hb
    · omega
    · exact ih _ _ hb

theorem length_toBytesLE (n v : Nat) : (toBytesLE n v).length = n := by
  induction n generalizing v with
  | zero => rfl
  | succ m ih => simp [toBytesLE, ih]

theorem fromBytesLE_toBytesLE (n v : Nat) (h : v < 256 ^ n) :
    fromBytesLE (toBytesLE n v) = v := by
  induction n generalizing v with
  | zero => simp [toBytesLE, fromBytesLE]; omega
  | succ m ih =>
    have hdiv : v / 256 < 256 ^ m := by
      rw [Nat.div_lt_iff_lt_mul (by norm_num)]
      calc v < 256 ^ (m + 1) := h
        _ = 256 ^ m * 256 := by ring
    simp only [toBytesLE, fromBytesLE, ih _ hdiv]
    omega

theorem toBytesLE_inj (a b : Nat) (ha : a < 256 ^ 16) (hb : b < 256 ^ 16)
    (h : toBytesLE 16 a = toBytesLE 16 b) : a = b := by
  have := congrArg fromBytesLE h
  rwa [fromBytesLE_toBytesLE _ _ ha, fromBytesLE_toBytesLE _ _ hb] at this

theorem macBytes_lt (key iv ct : List Nat) : ∀ b ∈ macBytes key iv ct, b < 256 :=
  toBytesLE_lt _ _

theorem length_macBytes (key iv ct : List Nat) : (macBytes key iv ct).length = 16 :=
  length_toBytesLE _ _

theorem ksByte_lt (key iv : List Nat) (i : Nat) : ksByte key iv i < 256 :=
  Nat.mod_lt _ (by norm_num)

theorem xorStream_lt (key iv x : List Nat) (hx : ∀ b ∈ x, b < 256) :
    ∀ i, ∀ b ∈ xorStream key iv i x, b < 256 := by
  induction x with
  | nil => simp [xorStream]
  | cons b t ih =>
    intro i y hy
    simp only [xorStream, List.mem_cons] at hy
    rcases hy with hy | hy
    · subst hy
      have h1 : b < 2 ^ 8 := hx b (by simp)
      have h2 : ksByte key iv i < 2 ^ 8 := ksByte_lt key iv i
      exact Nat.xor_lt_two_pow h1 h2
    · exact ih (fun z hz => hx z (by simp [hz])) (i + 1) y hy

theorem xorStream_involution (key iv x : List Nat) :
    ∀ i, xorStream key iv i (xorStream key iv i x) = x := by
  induction x with
  | nil => intro i; rfl
  | cons b t ih =>
    intro i
    simp only [xorStream, ih (i + 1), List.cons.injEq, and_true]
    rw [Nat.xor_assoc, Nat.xor_self, Nat.xor_zero]

theorem length_xorStream (key iv x : List Nat) : ∀ i, (xorStream key iv i x).length = x.length := by
  induction x with
  | nil => intro i; rfl
  | cons b t ih => intro i; simp [xorStream, ih (i + 1)]

/-! ## The successful decryption path shared by the round-trip and
tamper-detection results -/

theorem decrypt_mkEnvelope_ok (key salt iv x : List Nat)
    (hkey : key.length = 32)
    (hiv : iv.length = 16) (hivb : ∀ b ∈ iv, b < 256)
    (hsb : ∀ b ∈ salt, b < 256)
    (hxb : ∀ b ∈ x, b < 256) :
    decrypt key (mkEnvelope (bytesToHex salt) (bytesToHex iv)
      (bytesToHex (macBytes key iv (xorStream key iv 0 x)))
      (bytesToHex (xorStream key iv 0 x))) = .plaintext x := by
  set ct := xorStream key iv 0 x with hct
  have hctb : ∀ b ∈ ct, b < 256 := xorStream_lt key iv x hxb 0
  have hsc : ':' ∉ bytesToHex salt := colon_not_mem_bytesToHex _ hsb
  have hic : ':' ∉ bytesToHex iv := colon_not_mem_bytesToHex _ hivb
  have htc : ':' ∉ bytesToHex (macBytes key iv ct) :=
    colon_not_mem_bytesToHex _ (macBytes_lt key iv ct)
  have hcc : ':' ∉ bytesToHex ct := colon_not_mem_bytesToHex _ hctb
  have hmem : ':' ∈ (mkEnvelope (bytesToHex salt) (bytesToHex iv)
      (bytesToHex (macBytes key iv ct)) (bytesToHex ct)).data := by
    simp [mkEnvelope]
  have hsplit : splitOnColon (mkEnvelope (bytesToHex salt) (bytesToHex iv)
      (bytesToHex (macBytes key iv ct)) (bytesToHex ct)).data
      = [bytesToHex salt, bytesToHex iv, bytesToHex (macBytes key iv ct), bytesToHex ct] := by
    exact splitOnColon_envelope _ _ _ _ hsc hic htc hcc
  unfold decrypt
  rw [if_pos hmem]
  simp only [hsplit, List.length_cons, List.length_nil]
  rw [if_neg (by omega)]
  rw [hexToBytes_bytesToHex _ hivb, hexToBytes_bytesToHex _ (macBytes_lt key iv ct),
    hexToBytes_bytesToHex _ hctb]
  rw [if_neg (by omega)]
  have hivne : iv ≠ [] := by
    intro h
    rw [h] at hiv
    simp at hiv
  rw [if_neg hivne, if_neg (by simp)]
  rw [hct, xorStream_involution]

/-! ## Concrete inputs used by witnesses -/

/-- A concrete 32-byte master key for witness statements. -/
def cKey : List Nat := List.range 32

/-- A concrete 64-byte salt for witness statements. -/
def cSalt : List Nat := List.replicate 64 7

/-- A concrete 16-byte IV for witness statements. -/
def cIv : List Nat := List.range 16

/-! ## Claim C1 -/

/-- Claim C1: for every non-empty plaintext (given here by its UTF-8
byte list, of any length, which covers the claimed bound of 2048
characters), decrypting the envelope produced by encrypt under the same
master key returns the original plaintext. -/
theorem C1_encrypt_decrypt_round_trip (key salt iv x : List Nat) (env : String)
    (hkey : key.length = 32)
    (hiv : iv.length = 16) (hivb : ∀ b ∈ iv, b < 256)
    (hsb : ∀ b ∈ salt, b < 256)
    (hx : x ≠ []) (hxb : ∀ b ∈ x, b < 256)
    (henv : encrypt key salt iv x = some env) :
    decrypt key env = .plaintext x := by
  unfold encrypt at henv
  rw [if_neg hx, if_neg (by omega)] at henv
  simp only [encryptParts, Option.some.injEq] at henv
  rw [← henv]
  exact decrypt_mkEnvelope_ok key salt iv x hkey hiv hivb hsb hxb

set_option maxRecDepth 8192 in
/-- Witness for C1 at a concrete key, salt, IV and the plaintext bytes
of the string Hi. -/
theorem C1_witness :
    decrypt cKey ((encrypt cKey cSalt cIv [72, 105]).getD "") = .plaintext [72, 105] :=
  C1_encrypt_decrypt_round_trip cKey cSalt cIv [72, 105]
    ((encrypt cKey cSalt cIv [72, 105]).getD "")
    (by decide) (by decide) (by decide) (by decide) (by decide) (by decide)
    (by decide)

/-! ## Claim C3 -/

/-- Claim C3 counterexample: the string ab:cd:ef:gh contains the
delimiter and splits into exactly 4 parts, but the fourth part is not
hex (the character g has no hex value), so by the claim decrypt should
return it unchanged; the code instead enters the decryption branch and
returns null. -/
theorem C3_counterexample :
    (splitOnColon ("ab:cd:ef:gh").data).length = 4 ∧
    hexVal? 'g' = none ∧
    decrypt cKey "ab:cd:ef:gh" = .nullResult ∧
    decrypt cKey "ab:cd:ef:gh" ≠ .passthrough "ab:cd:ef:gh" := by
  decide

/-- Claim C3 (amended): decrypt returns its input unchanged exactly when
the input has no colon, or does not split into exactly 4 colon-separated
parts; the parts need not be hex for the decryption branch to be
entered, so a 4-part non-hex input is not passed through. -/
theorem C3_passthrough (key : List Nat) (s : String)
    (h : ':' ∉ s.data ∨ (splitOnColon s.data).length ≠ 4) :
    decrypt key s = .passthrough s := by
  rcases h with h | h
  · simp [decrypt, h]
  · by_cases hc : ':' ∈ s.data
    · simp [decrypt, hc, h]
    · simp [decrypt, hc]

/-- Witness for the amended C3 on a delimiter-free input and on an input
with too few parts. -/
theorem C3_witness :
    decrypt cKey "plain-legacy-secret" = .passthrough "plain-legacy-secret" ∧
    decrypt cKey "a:b" = .passthrough "a:b" :=
  ⟨C3_passthrough cKey "plain-legacy-secret" (Or.inl (by decide)),
   C3_passthrough cKey "a:b" (Or.inr (by decide))⟩

/-! ## Positional lemmas about lists, the hex codec and the tag model,
used for tamper detection -/

theorem getD_mem (l : List Nat) (k d : Nat) (hk : k < l.length) : l.getD k d ∈ l := by
  induction l generalizing k with
  | nil => simp at hk
  | cons b t ih =>
    cases k with
    | zero => simp
    | succ k2 =>
      have h2 := ih k2 (by simpa using hk)
      simp only [List.getD_cons_succ, List.mem_cons]
      exact Or.inr h2

theorem getD_set_same (l : List Nat) (k a d : Nat) (hk : k < l.length) :
    (l.set k a).getD k d = a := by
  induction l generalizing k with
  | nil => simp at hk
  | cons b t ih =>
    cases k with
    | zero => rfl
    | succ k2 => exact ih k2 (by simpa using hk)

theorem set_getD_self (l : List Nat) (k d : Nat) (hk : k < l.length) :
    l.set k (l.getD k d) = l := by
  induction l generalizing k with
  | nil => simp at hk
  | cons b t ih =>
    cases k with
    | zero => rfl
    | succ k2 =>
      simp only [List.set_cons_succ, List.getD_cons_succ]
      rw [ih k2 (by simpa using hk)]

theorem set_ne_self (l : List Nat) (k nb d : Nat) (hk : k < l.length)
    (hne : nb ≠ l.getD k d) : l.set k nb ≠ l := by
  intro h
  have h1 := getD_set_same l k nb d hk
  rw [h] at h1
  exact hne h1.symm

theorem hexVal_lt (c : Char) (v : Nat) (h : hexVal? c = some v) : v < 16 := by
  unfold hexVal? at h
  split_ifs at h with h1 h2 h3 <;> simp only [Option.some.injEq] at h <;> omega

theorem colon_not_mem_set (l : List Char) (hl : ':' ∉ l) (i : Nat) (c : Char) (v : Nat)
    (hc : hexVal? c = some v) : ':' ∉ l.set i c := by
  intro hmem
  rcases List.mem_or_eq_of_mem_set hmem with h | h
  · exact hl h
  · rw [← h] at hc
    simp [hexVal?] at hc

theorem getD_bytesToHex (bs : List Nat) (i : Nat) (hi : i < (bytesToHex bs).length) :
    (bytesToHex bs).getD i '0' =
      if i % 2 = 0 then hexDigitChar (bs.getD (i / 2) 0 / 16)
      else hexDigitChar (bs.getD (i / 2) 0 % 16) := by
  induction bs generalizing i with
  | nil => simp [bytesToHex] at hi
  | cons b t ih =>
    match i with
    | 0 => rfl
    | 1 => rfl
    | n + 2 =>
      have hlen : n < (bytesToHex t).length := by
        simp only [bytesToHex, List.length_cons] at hi
        omega
      have e1 : (n + 2) % 2 = n % 2 := by omega
      have e2 : (n + 2) / 2 = n / 2 + 1 := by omega
      have lhs : (bytesToHex (b :: t)).getD (n + 2) '0' = (bytesToHex t).getD n '0' := rfl
      rw [lhs, ih n hlen, e1, e2]
      rfl

theorem hexToBytes_set (bs : List Nat) (hbs : ∀ b ∈ bs, b < 256) (i : Nat) (c : Char) (v : Nat)
    (hc : hexVal? c = some v) (hi : i < (bytesToHex bs).length) :
    hexToBytesJS ((bytesToHex bs).set i c) =
      bs.set (i / 2)
        (if i % 2 = 0 then v * 16 + bs.getD (i / 2) 0 % 16
         else bs.getD (i / 2) 0 / 16 * 16 + v) := by
  induction bs generalizing i with
  | nil => simp [bytesToHex] at hi
  | cons b t ih =>
    have hb : b < 256 := hbs b (by simp)
    have hdiv : b / 16 < 16 := Nat.div_lt_of_lt_mul (by omega)
    have hmod : b % 16 < 16 := Nat.mod_lt _ (by omega)
    have htb : ∀ y ∈ t, y < 256 := fun y hy => hbs y (by simp [hy])
    match i with
    | 0 =>
      show hexToBytesJS (c :: hexDigitChar (b % 16) :: bytesToHex t)
        = (b :: t).set 0 (v * 16 + b % 16)
      simp only [hexToBytesJS, hc, hexVal_hexDigitChar _ hmod,
        hexToBytes_bytesToHex t htb, List.set]
    | 1 =>
      show hexToBytesJS (hexDigitChar (b / 16) :: c :: bytesToHex t)
        = (b :: t).set 0 (b / 16 * 16 + v)
      simp only [hexToBytesJS, hc, hexVal_hexDigitChar _ hdiv,
        hexToBytes_bytesToHex t htb, List.set]
    | n + 2 =>
      have hlen : n < (bytesToHex t).length := by
        simp only [bytesToHex, List.length_cons] at hi
        omega
      have e1 : (n + 2) % 2 = n % 2 := by omega
      have e2 : (n + 2) / 2 = n / 2 + 1 := by omega
      have lhs : hexToBytesJS ((bytesToHex (b :: t)).set (n + 2) c)
          = (b / 16 * 16 + b % 16) :: hexToBytesJS ((bytesToHex t).set n c) := by
        show hexToBytesJS (hexDigitChar (b / 16) :: hexDigitChar (b % 16)
          :: (bytesToHex t).set n c)
          = (b / 16 * 16 + b % 16) :: hexToBytesJS ((bytesToHex t).set n c)
        simp only [hexToBytesJS, hexVal_hexDigitChar _ hdiv, hexVal_hexDigitChar _ hmod]
      rw [lhs, ih htb n hlen, e1, e2]
      have eb : b / 16 * 16 + b % 16 = b := by omega
      rw [eb]
      rfl

/-! ## Injectivity of the tag model under single-byte modification -/

theorem macStep_inj_h (h1 h2 b : Nat) (hh1 : h1 < macP) (hh2 : h2 < macP)
    (hne : h1 ≠ h2) : macStep h1 b ≠ macStep h2 b := by
  intro heq
  apply hne
  have hmod : h1 * 256 + b ≡ h2 * 256 + b [MOD macP] := heq
  have h3 : h1 * 256 ≡ h2 * 256 [MOD macP] := hmod.add_right_cancel' b
  have h4 : 256 * h1 ≡ 256 * h2 [MOD macP] := by
    rwa [Nat.mul_comm h1 256, Nat.mul_comm h2 256] at h3
  have h5 : h1 ≡ h2 [MOD macP] := Nat.ModEq.cancel_left_of_coprime gcd_macP_256 h4
  have h6 : h1 % macP = h2 % macP := h5
  rwa [Nat.mod_eq_of_lt hh1, Nat.mod_eq_of_lt hh2] at h6

theorem macStep_inj_b (h b1 b2 : Nat) (hb1 : b1 < 256) (hb2 : b2 < 256)
    (hne : b1 ≠ b2) : macStep h b1 ≠ macStep h b2 := by
  intro heq
  apply hne
  have hmod : h * 256 + b1 ≡ h * 256 + b2 [MOD macP] := heq
  have h3 : b1 ≡ b2 [MOD macP] := hmod.add_left_cancel' (h * 256)
  have h4 : b1 % macP = b2 % macP := h3
  have h5 : (256 : Nat) < macP := byte_lt_macP
  rwa [Nat.mod_eq_of_lt (by omega), Nat.mod_eq_of_lt (by omega)] at h4

theorem macAcc_inj (t : List Nat) (h1 h2 : Nat) (hh1 : h1 < macP) (hh2 : h2 < macP)
    (hne : h1 ≠ h2) : macAcc h1 t ≠ macAcc h2 t := by
  induction t generalizing h1 h2 with
  | nil => exact hne
  | cons b bs ih =>
    exact ih (macStep h1 b) (macStep h2 b) (macStep_lt _ _) (macStep_lt _ _)
      (macStep_inj_h h1 h2 b hh1 hh2 hne)

theorem macAcc_set_ne (l : List Nat) (hl : ∀ b ∈ l, b < 256) (h : Nat) (hh : h < macP)
    (k : Nat) (hk : k < l.length) (nb : Nat) (hnb : nb < 256)
    (hne : nb ≠ l.getD k 0) : macAcc h (l.set k nb) ≠ macAcc h l := by
  induction l generalizing h k with
  | nil => simp at hk
  | cons b t ih =>
    have hb : b < 256 := hl b (by simp)
    have htl : ∀ y ∈ t, y < 256 := fun y hy => hl y (by simp [hy])
    cases k with
    | zero =>
      show macAcc (macStep h nb) t ≠ macAcc (macStep h b) t
      exact macAcc_inj t _ _ (macStep_lt _ _) (macStep_lt _ _)
        (macStep_inj_b h nb b hnb hb (by simpa using hne))
    | succ k2 =>
      show macAcc (macStep h b) (t.set k2 nb) ≠ macAcc (macStep h b) t
      exact ih htl (macStep h b) (macStep_lt _ _) k2 (by simpa using hk)
        (by simpa using hne)

theorem macBytes_set_ne (key iv ct : List Nat) (hct : ∀ b ∈ ct, b < 256)
    (k : Nat) (hk : k < ct.length) (nb : Nat) (hnb : nb < 256)
    (hne : nb ≠ ct.getD k 0) : macBytes key iv (ct.set k nb) ≠ macBytes key iv ct := by
  intro heq
  have hlt : macAcc (macAcc 1 key) iv < macP := by
    apply macAcc_lt
    apply macAcc_lt
    exact Nat.lt_of_lt_of_le (by norm_num) (Nat.le_of_lt byte_lt_macP)
  have hv : macVal key iv (ct.set k nb) ≠ macVal key iv ct :=
    macAcc_set_ne ct hct _ hlt k hk nb hnb hne
  exact hv (toBytesLE_inj _ _
    (Nat.lt_trans (macVal_lt _ _ _) macP_lt)
    (Nat.lt_trans (macVal_lt _ _ _) macP_lt) heq)

/-! ## Case analysis of decrypt on a well-formed envelope shape -/

theorem decrypt_mkEnvelope_cases (key : List Nat) (saltH ivH tagH ctH : List Char)
    (hs : ':' ∉ saltH) (hivh : ':' ∉ ivH) (hth : ':' ∉ tagH) (hcth : ':' ∉ ctH)
    (hkey : key.length = 32) (hivne : hexToBytesJS ivH ≠ []) :
    decrypt key (mkEnvelope saltH ivH tagH ctH) =
      if hexToBytesJS tagH = macBytes key (hexToBytesJS ivH) (hexToBytesJS ctH)
      then .plaintext (xorStream key (hexToBytesJS ivH) 0 (hexToBytesJS ctH))
      else .nullResult := by
  have hmem : ':' ∈ (mkEnvelope saltH ivH tagH ctH).data := by
    simp [mkEnvelope]
  have hsplit : splitOnColon (mkEnvelope saltH ivH tagH ctH).data
      = [saltH, ivH, tagH, ctH] := by
    exact splitOnColon_envelope _ _ _ _ hs hivh hth hcth
  unfold decrypt
  rw [if_pos hmem]
  simp only [hsplit, List.length_cons, List.length_nil]
  rw [if_neg (by omega)]
  rw [if_neg (by omega)]
  rw [if_neg hivne]
  by_cases htag : hexToBytesJS tagH = macBytes key (hexToBytesJS ivH) (hexToBytesJS ctH)
  · rw [if_pos htag, if_neg (by simp [htag])]
  · rw [if_neg htag, if_pos htag]

/-! ## Claim C2 -/

/-- Hex form of the tag part of the envelope encrypt produces. -/
def tagHexOf (key iv x : List Nat) : List Char :=
  bytesToHex (macBytes key iv (xorStream key iv 0 x))

/-- Hex form of the ciphertext part of the envelope encrypt produces. -/
def ctHexOf (key iv x : List Nat) : List Char :=
  bytesToHex (xorStream key iv 0 x)

/-- The envelope of encrypt with one character of the tag part replaced. -/
def envTagMod (key salt iv x : List Nat) (i : Nat) (c : Char) : String :=
  mkEnvelope (bytesToHex salt) (bytesToHex iv) ((tagHexOf key iv x).set i c)
    (ctHexOf key iv x)

/-- The envelope of encrypt with one character of the ciphertext part
replaced. -/
def envCtMod (key salt iv x : List Nat) (i : Nat) (c : Char) : String :=
  mkEnvelope (bytesToHex salt) (bytesToHex iv) (tagHexOf key iv x)
    ((ctHexOf key iv x).set i c)

/-- Claim C2 (amended): replacing a single hex character of the tag part
or of the ciphertext part of an envelope produced by encrypt with a hex
character of a DIFFERENT hex value makes decrypt return null; replacing
it with the other-case spelling of the SAME hex value leaves the decoded
envelope unchanged and decrypt returns the original plaintext. In both
cases decrypt never returns a plaintext different from the original. -/
theorem C2_tamper_detection (key salt iv x : List Nat)
    (hkey : key.length = 32) (hiv : iv.length = 16) (hivb : ∀ b ∈ iv, b < 256)
    (hsb : ∀ b ∈ salt, b < 256) (hx : x ≠ []) (hxb : ∀ b ∈ x, b < 256)
    (i : Nat) (c : Char) (v : Nat) (hc : hexVal? c = some v) :
    encrypt key salt iv x = some (mkEnvelope (bytesToHex salt) (bytesToHex iv)
        (tagHexOf key iv x) (ctHexOf key iv x))
  ∧ (i < (tagHexOf key iv x).length →
      ((hexVal? c ≠ hexVal? ((tagHexOf key iv x).getD i '0') →
        decrypt key (envTagMod key salt iv x i c) = .nullResult)
     ∧ (hexVal? c = hexVal? ((tagHexOf key iv x).getD i '0') →
        decrypt key (envTagMod key salt iv x i c) = .plaintext x)))
  ∧ (i < (ctHexOf key iv x).length →
      ((hexVal? c ≠ hexVal? ((ctHexOf key iv x).getD i '0') →
        decrypt key (envCtMod key salt iv x i c) = .nullResult)
     ∧ (hexVal? c = hexVal? ((ctHexOf key iv x).getD i '0') →
        decrypt key (envCtMod key salt iv x i c) = .plaintext x))) := by
  have hctb : ∀ b ∈ xorStream key iv 0 x, b < 256 := xorStream_lt key iv x hxb 0
  have htagb := macBytes_lt key iv (xorStream key iv 0 x)
  have ivdec : hexToBytesJS (bytesToHex iv) = iv := hexToBytes_bytesToHex iv hivb
  have ctdec : hexToBytesJS (ctHexOf key iv x) = xorStream key iv 0 x :=
    hexToBytes_bytesToHex _ hctb
  have tagdec : hexToBytesJS (tagHexOf key iv x)
      = macBytes key iv (xorStream key iv 0 x) := hexToBytes_bytesToHex _ htagb
  have hivne : hexToBytesJS (bytesToHex iv) ≠ [] := by
    rw [ivdec]
    intro h
    rw [h] at hiv
    simp at hiv
  have hsc : ':' ∉ bytesToHex salt := colon_not_mem_bytesToHex _ hsb
  have hic : ':' ∉ bytesToHex iv := colon_not_mem_bytesToHex _ hivb
  have htc : ':' ∉ tagHexOf key iv x := colon_not_mem_bytesToHex _ htagb
  have hcc : ':' ∉ ctHexOf key iv x := colon_not_mem_bytesToHex _ hctb
  have hvlt : v < 16 := hexVal_lt c v hc
  refine ⟨?_, ?_, ?_⟩
  · simp [encrypt, encryptParts, hx, hkey, tagHexOf, ctHexOf, mkEnvelope]
  · intro hi
    have hi' : i < (bytesToHex (macBytes key iv (xorStream key iv 0 x))).length := hi
    have hlen2 : i < 2 * (macBytes key iv (xorStream key iv 0 x)).length := by
      have := length_bytesToHex (macBytes key iv (xorStream key iv 0 x))
      omega
    have hi2 : i / 2 < (macBytes key iv (xorStream key iv 0 x)).length := by omega
    have hbmem : (macBytes key iv (xorStream key iv 0 x)).getD (i / 2) 0 < 256 :=
      htagb _ (getD_mem _ _ _ hi2)
    set tb := (macBytes key iv (xorStream key iv 0 x)).getD (i / 2) 0 with htbdef
    have horig : (tagHexOf key iv x).getD i '0'
        = if i % 2 = 0 then hexDigitChar (tb / 16) else hexDigitChar (tb % 16) := by
      unfold tagHexOf
      rw [getD_bytesToHex _ _ hi']
    have horigval : hexVal? ((tagHexOf key iv x).getD i '0')
        = some (if i % 2 = 0 then tb / 16 else tb % 16) := by
      rw [horig]
      by_cases hp : i % 2 = 0
      · simp only [hp, if_true]
        exact hexVal_hexDigitChar _ (by omega)
      · simp only [hp, if_false]
        exact hexVal_hexDigitChar _ (by omega)
    have hdec := hexToBytes_set (macBytes key iv (xorStream key iv 0 x)) htagb i c v hc hi'
    have hdec2 : hexToBytesJS ((tagHexOf key iv x).set i c)
        = (macBytes key iv (xorStream key iv 0 x)).set (i / 2)
          (if i % 2 = 0 then v * 16 + tb % 16 else tb / 16 * 16 + v) := hdec
    have hcases := decrypt_mkEnvelope_cases key (bytesToHex salt) (bytesToHex iv)
      ((tagHexOf key iv x).set i c) (ctHexOf key iv x) hsc hic
      (colon_not_mem_set _ htc i c v hc) hcc hkey hivne
    rw [ivdec, ctdec] at hcases
    have henv : decrypt key (envTagMod key salt iv x i c)
        = if hexToBytesJS ((tagHexOf key iv x).set i c)
            = macBytes key iv (xorStream key iv 0 x)
          then .plaintext (xorStream key iv 0 (xorStream key iv 0 x))
          else .nullResult := hcases
    constructor
    · intro hne
      rw [hc, horigval] at hne
      have hvne : v ≠ (if i % 2 = 0 then tb / 16 else tb % 16) := by
        simpa using hne
      have hnbne : (if i % 2 = 0 then v * 16 + tb % 16 else tb / 16 * 16 + v) ≠ tb := by
        by_cases hp : i % 2 = 0 <;> simp only [hp, if_true, if_false] at hvne ⊢ <;> omega
      rw [henv, hdec2, if_neg]
      exact set_ne_self _ _ _ 0 hi2 hnbne
    · intro heq
      rw [hc, horigval] at heq
      have hveq : v = (if i % 2 = 0 then tb / 16 else tb % 16) := by
        simpa using heq
      have hnbeq : (if i % 2 = 0 then v * 16 + tb % 16 else tb / 16 * 16 + v) = tb := by
        by_cases hp : i % 2 = 0 <;> simp only [hp, if_true, if_false] at hveq ⊢ <;> omega
      have hself : (macBytes key iv (xorStream key iv 0 x)).set (i / 2) tb
          = macBytes key iv (xorStream key iv 0 x) := by
        rw [htbdef]
        exact set_getD_self _ _ _ hi2
      rw [henv, hdec2, hnbeq, hself, if_pos rfl, xorStream_involution]
  · intro hi
    have hi' : i < (bytesToHex (xorStream key iv 0 x)).length := hi
    have hlen2 : i < 2 * (xorStream key iv 0 x).length := by
      have := length_bytesToHex (xorStream key iv 0 x)
      omega
    have hi2 : i / 2 < (xorStream key iv 0 x).length := by omega
    have hbmem : (xorStream key iv 0 x).getD (i / 2) 0 < 256 :=
      hctb _ (getD_mem _ _ _ hi2)
    set cb := (xorStream key iv 0 x).getD (i / 2) 0 with hcbdef
    have horig : (ctHexOf key iv x).getD i '0'
        = if i % 2 = 0 then hexDigitChar (cb / 16) else hexDigitChar (cb % 16) := by
      unfold ctHexOf
      rw [getD_bytesToHex _ _ hi']
    have horigval : hexVal? ((ctHexOf key iv x).getD i '0')
        = some (if i % 2 = 0 then cb / 16 else cb % 16) := by
      rw [horig]
      by_cases hp : i % 2 = 0
      · simp only [hp, if_true]
        exact hexVal_hexDigitChar _ (by omega)
      · simp only [hp, if_false]
        exact hexVal_hexDigitChar _ (by omega)
    have hdec := hexToBytes_set (xorStream key iv 0 x) hctb i c v hc hi'
    have hdec2 : hexToBytesJS ((ctHexOf key iv x).set i c)
        = (xorStream key iv 0 x).set (i / 2)
          (if i % 2 = 0 then v * 16 + cb % 16 else cb / 16 * 16 + v) := hdec
    have hcases := decrypt_mkEnvelope_cases key (bytesToHex salt) (bytesToHex iv)
      (tagHexOf key iv x) ((ctHexOf key iv x).set i c) hsc hic htc
      (colon_not_mem_set _ hcc i c v hc) hkey hivne
    rw [ivdec, tagdec] at hcases
    have henv : decrypt key (envCtMod key salt iv x i c)
        = if macBytes key iv (xorStream key iv 0 x)
            = macBytes key iv (hexToBytesJS ((ctHexOf key iv x).set i c))
          then .plaintext (xorStream key iv 0 (hexToBytesJS ((ctHexOf key iv x).set i c)))
          else .nullResult := hcases
    have hnb255 : (if i % 2 = 0 then v * 16 + cb % 16 else cb / 16 * 16 + v) < 256 := by
      by_cases hp : i % 2 = 0 <;> simp only [hp, if_true, if_false] <;> omega
    constructor
    · intro hne
      rw [hc, horigval] at hne
      have hvne : v ≠ (if i % 2 = 0 then cb / 16 else cb % 16) := by
        simpa using hne
      have hnbne : (if i % 2 = 0 then v * 16 + cb % 16 else cb / 16 * 16 + v) ≠ cb := by
        by_cases hp : i % 2 = 0 <;> simp only [hp, if_true, if_false] at hvne ⊢ <;> omega
      rw [henv, hdec2, if_neg]
      intro hbad
      exact macBytes_set_ne key iv (xorStream key iv 0 x) hctb _ hi2 _ hnb255 hnbne hbad.symm
    · intro heq
      rw [hc, horigval] at heq
      have hveq : v = (if i % 2 = 0 then cb / 16 else cb % 16) := by
        simpa using heq
      have hnbeq : (if i % 2 = 0 then v * 16 + cb % 16 else cb / 16 * 16 + v) = cb := by
        by_cases hp : i % 2 = 0 <;> simp only [hp, if_true, if_false] at hveq ⊢ <;> omega
      have hself : (xorStream key iv 0 x).set (i / 2) cb = xorStream key iv 0 x := by
        rw [hcbdef]
        exact set_getD_self _ _ _ hi2
      rw [henv, hdec2, hnbeq, hself, if_pos rfl, xorStream_involution]

set_option maxRecDepth 16384 in
/-- Claim C2 counterexample: in the envelope encrypt produces for the
concrete key, salt, IV and plaintext bytes of Hi, the tag part has the
lower-case hex character b at position 1; replacing it with the distinct
hex character B leaves the decoded tag unchanged (hex decoding is case
insensitive), so decrypt succeeds and returns the original plaintext
instead of the failure sentinel the claim requires for every single
hex-character change. -/
theorem C2_counterexample :
    tagHexOf cKey cIv [72, 105] = ("9b2992827b746d665f58514a433c352e").data ∧
    (tagHexOf cKey cIv [72, 105]).getD 1 '0' = 'b' ∧
    'B' ≠ 'b' ∧
    (hexVal? 'B').isSome = true ∧
    encrypt cKey cSalt cIv [72, 105] = some (mkEnvelope (bytesToHex cSalt)
      (bytesToHex cIv) (tagHexOf cKey cIv [72, 105]) (ctHexOf cKey cIv [72, 105])) ∧
    decrypt cKey (envTagMod cKey cSalt cIv [72, 105] 1 'B') = .plaintext [72, 105] ∧
    decrypt cKey (envTagMod cKey cSalt cIv [72, 105] 1 'B') ≠ .nullResult := by
  decide

set_option maxRecDepth 16384 in
/-- Witness for the amended C2: a value-changing flip in the tag part
and one in the ciphertext part of a concrete envelope both make decrypt
return null. -/
theorem C2_witness :
    decrypt cKey (envTagMod cKey cSalt cIv [72, 105] 1 '0') = .nullResult ∧
    decrypt cKey (envCtMod cKey cSalt cIv [72, 105] 0 'f') = .nullResult := by
  constructor
  · exact ((C2_tamper_detection cKey cSalt cIv [72, 105] (by decide) (by decide)
      (by decide) (by decide) (by decide) (by decide) 1 '0' 0 (by decide)).2.1
      (by decide)).1 (by decide)
  · exact ((C2_tamper_detection cKey cSalt cIv [72, 105] (by decide) (by decide)
      (by decide) (by decide) (by decide) (by decide) 0 'f' 15 (by decide)).2.2
      (by decide)).1 (by decide)

/-! ## Configuration documents (ConfigService and
EncryptionService.encryptConfig / decryptConfig)

Documents are provider maps modelled as association lists in insertion
order, matching JavaScript object semantics for the operations used by
the source (key lookup, keyed assignment, delete). JSON deep copies are
the identity in this pure model. -/

/-- Options block of a provider record. An absent, null or empty apiKey
is collapsed to the empty string, which is exactly the set of values the
source treats as falsy and skips. -/
structure ProviderOpts where
  baseURL : String
  apiKey : String
deriving DecidableEq, Repr

/-- Provider record: npm, name, options, models (model id to name). -/
structure ProviderRec where
  npm : String
  name : String
  options : Option ProviderOpts
  models : List (String × String)
deriving DecidableEq, Repr

/-- Configuration document: map from provider id to record. -/
structure ConfigDoc where
  provider : List (String × ProviderRec)
deriving DecidableEq, Repr

/-- Lookup in an association list, as bracket access on a JS object. -/
def lookupA {α : Type} : List (String × α) → String → Option α
  | [], _ => none
  | (k, v) :: t, id => if k = id then some v else lookupA t id

/-- Keyed assignment on an association list: replace in place when the
key exists, append otherwise, as assignment on a JS object. -/
def setA {α : Type} : List (String × α) → String → α → List (String × α)
  | [], id, r => [(id, r)]
  | (k, v) :: t, id, r => if k = id then (id, r) :: t else (k, v) :: setA t id r

/-- Keyed removal from an association list, as the JS delete operator. -/
def removeA {α : Type} : List (String × α) → String → List (String × α)
  | [], _ => []
  | (k, v) :: t, id => if k = id then t else (k, v) :: removeA t id

/-- Stand-in for the Buffer UTF-8 decoding used when a decrypted byte
list is stored back into a string field; an external bijection on the
values exercised here. -/
def bytesToStrModel (bs : List Nat) : String := String.mk (bs.map Char.ofNat)

/-- Stand-in for the Buffer UTF-8 encoding of a string field. -/
def strToBytesModel (s : String) : List Nat := s.data.map Char.toNat

/-- The JS value of decrypt: a string or null. -/
def decryptApiKeyJS (key : List Nat) (k : String) : Option String :=
  match decrypt key k with
  | .passthrough s => some s
  | .plaintext bs => some (bytesToStrModel bs)
  | .nullResult => none

/-- One provider of EncryptionService.decryptConfig: when options and a
truthy apiKey are present, the apiKey is replaced by its decryption only
when that decryption is truthy; otherwise the record is unchanged. -/
def decryptProviderRec (key : List Nat) (p : ProviderRec) : ProviderRec :=
  match p.options with
  | none => p
  | some o =>
    if o.apiKey = "" then p
    else
      match decryptApiKeyJS key o.apiKey with
      | some s => if s = "" then p else { p with options := some { o with apiKey := s } }
      | none => p

/-- EncryptionService.decryptConfig over the whole document. -/
def decryptConfigDoc (key : List Nat) (cfg : ConfigDoc) : ConfigDoc :=
  { provider := cfg.provider.map (fun pr => (pr.1, decryptProviderRec key pr.2)) }

/-- One provider of EncryptionService.encryptConfig; a null result of
encrypt (impossible for the non-empty keys written by a 32-byte-key
service) is collapsed to the empty string. -/
def encryptProviderRec (key salt iv : List Nat) (p : ProviderRec) : ProviderRec :=
  match p.options with
  | none => p
  | some o =>
    if o.apiKey = "" then p
    else
      let ek := (encrypt key salt iv (strToBytesModel o.apiKey)).getD ""
      { p with options := some { o with apiKey := ek } }

/-- EncryptionService.encryptConfig, with the fresh salt and IV of each
provider drawn from an explicit entropy source indexed by position. -/
def encProvList (key : List Nat) (rnd : Nat → List Nat × List Nat) :
    Nat → List (String × ProviderRec) → List (String × ProviderRec)
  | _, [] => []
  | i, (pid, p) :: t =>
    (pid, encryptProviderRec key (rnd i).1 (rnd i).2 p) :: encProvList key rnd (i + 1) t

/-- EncryptionService.encryptConfig over the whole document. -/
def encryptConfigDoc (key : List Nat) (rnd : Nat → List Nat × List Nat)
    (cfg : ConfigDoc) : ConfigDoc :=
  { provider := encProvList key rnd 0 cfg.provider }

/-! ## ConfigService state and operations

The store state carries the on-disk document (none when the file does
not exist), the in-memory cache and its timestamp. Date.now is passed
explicitly. The file system is modelled reliable: the claims checked
here either hypothesize a successful write or never reach one. -/

/-- In-memory state of ConfigService plus the on-disk document. -/
structure StoreState where
  disk : Option ConfigDoc
  cache : Option ConfigDoc
  lastRead : Nat
deriving Repr

/-- Cache TTL of ConfigService, milliseconds. -/
def cacheTTL : Nat := 5000

/-- The disk branch of ConfigService.readConfig: a missing file yields
the empty document without touching the cache; otherwise the document
is decrypted, cached, and returned. -/
def readDiskS (key : List Nat) (st : StoreState) (now : Nat) : ConfigDoc × StoreState :=
  match st.disk with
  | none => ({ provider := [] }, st)
  | some doc =>
    let d := decryptConfigDoc key doc
    (d, { st with cache := some d, lastRead := now })

/-- ConfigService.readConfig: serve a copy of the cache when allowed and
younger than the TTL, else read the disk. -/
def readConfigS (key : List Nat) (st : StoreState) (now : Nat) (useCache : Bool) :
    ConfigDoc × StoreState :=
  match useCache, st.cache with
  | true, some c => if now - st.lastRead < cacheTTL then (c, st) else readDiskS key st now
  | _, _ => readDiskS key st now

/-- ConfigService.writeConfig on the success path: encrypt, write the
whole file, refresh the cache and timestamp, return true. -/
def writeConfigS (key : List Nat) (rnd : Nat → List Nat × List Nat)
    (_st : StoreState) (now : Nat) (cfg : ConfigDoc) : Bool × StoreState :=
  (true, { disk := some (encryptConfigDoc key rnd cfg), cache := some cfg, lastRead := now })

/-- ConfigService.getProvider. -/
def getProviderS (key : List Nat) (st : StoreState) (now : Nat) (id : String) :
    Option ProviderRec × StoreState :=
  let r := readConfigS key st now true
  (lookupA r.1.provider id, r.2)

/-- ConfigService.addOrUpdateProvider: fresh read bypassing the cache,
keyed assignment, full write back. -/
def addOrUpdateProviderS (key : List Nat) (rnd : Nat → List Nat × List Nat)
    (st : StoreState) (now : Nat) (id : String) (rec : ProviderRec) :
    Bool × StoreState :=
  let r := readConfigS key st now false
  writeConfigS key rnd r.2 now { provider := setA r.1.provider id rec }

/-- ConfigService.deleteProvider: fresh read bypassing the cache; false
without writing when the id is absent, else delete and write back. -/
def deleteProviderS (key : List Nat) (rnd : Nat → List Nat × List Nat)
    (st : StoreState) (now : Nat) (id : String) : Bool × StoreState :=
  let r := readConfigS key st now false
  match lookupA r.1.provider id with
  | some _ => writeConfigS key rnd r.2 now { provider := removeA r.1.provider id }
  | none => (false, r.2)

/-! ## Lemmas about the association-list operations -/

theorem lookupA_setA {α : Type} (l : List (String × α)) (id : String) (r : α) :
    lookupA (setA l id r) id = some r := by
  induction l with
  | nil => simp [setA, lookupA]
  | cons p t ih =>
    by_cases h : p.1 = id
    · simp [setA, h, lookupA]
    · simp [setA, h, lookupA, ih]

theorem lookupA_map {α : Type} (l : List (String × α)) (f : α → α) (id : String) :
    lookupA (l.map (fun pr => (pr.1, f pr.2))) id = (lookupA l id).map f := by
  induction l with
  | nil => rfl
  | cons p t ih =>
    by_cases h : p.1 = id
    · simp [lookupA, h]
    · simp [lookupA, h, ih]

/-! ## Claim C4 -/

/-- Claim C4: when addOrUpdateProvider succeeds, an immediately
following getProvider within the cache TTL window returns the record
just written, because writeConfig refreshes the cache with the plaintext
document before the read. -/
theorem C4_add_then_get (key : List Nat) (rnd : Nat → List Nat × List Nat)
    (st : StoreState) (now1 now2 : Nat) (id : String) (rec : ProviderRec)
    (_hok : (addOrUpdateProviderS key rnd st now1 id rec).1 = true)
    (httl : now2 - now1 < cacheTTL) :
    (getProviderS key (addOrUpdateProviderS key rnd st now1 id rec).2 now2 id).1
      = some rec := by
  simp [getProviderS, addOrUpdateProviderS, writeConfigS, readConfigS, httl, lookupA_setA]

/-- A concrete provider record for witness statements. -/
def cRec : ProviderRec :=
  { npm := "@ai-sdk/openai-compatible", name := "OpenAI",
    options := some { baseURL := "https://api.openai.com/v1", apiKey := "sk-test" },
    models := [("gpt-4", "gpt-4")] }

/-- Witness for C4: write then read one millisecond later on a fresh
empty store. -/
theorem C4_witness :
    (getProviderS cKey
      (addOrUpdateProviderS cKey (fun _ => (cSalt, cIv))
        { disk := none, cache := none, lastRead := 0 } 100 "openai" cRec).2
      101 "openai").1 = some cRec :=
  C4_add_then_get cKey (fun _ => (cSalt, cIv))
    { disk := none, cache := none, lastRead := 0 } 100 101 "openai" cRec
    (by decide) (by decide)

/-! ## Claim C5 -/

/-- Claim C5: deleting a provider id absent from the stored document
returns false and leaves the on-disk document untouched (the fresh read
it performs may refresh the in-memory cache, but nothing is written). -/
theorem C5_delete_absent (key : List Nat) (rnd : Nat → List Nat × List Nat)
    (st : StoreState) (now : Nat) (id : String)
    (habs : ∀ doc, st.disk = some doc → lookupA doc.provider id = none) :
    (deleteProviderS key rnd st now id).1 = false
  ∧ (deleteProviderS key rnd st now id).2.disk = st.disk := by
  cases hdisk : st.disk with
  | none =>
    simp [deleteProviderS, readConfigS, readDiskS, hdisk, lookupA]
  | some doc =>
    have h := habs doc hdisk
    have h2 : lookupA (decryptConfigDoc key doc).provider id = none := by
      simp [decryptConfigDoc, lookupA_map, h]
    simp [deleteProviderS, readConfigS, readDiskS, hdisk, h2]

/-- Witness for C5: deleting the absent id other from a store holding
only the id openai on disk. -/
theorem C5_witness :
    (deleteProviderS cKey (fun _ => (cSalt, cIv))
      { disk := some { provider := [("openai", cRec)] }, cache := none, lastRead := 0 }
      50 "other").1 = false
  ∧ (deleteProviderS cKey (fun _ => (cSalt, cIv))
      { disk := some { provider := [("openai", cRec)] }, cache := none, lastRead := 0 }
      50 "other").2.disk = some { provider := [("openai", cRec)] } :=
  C5_delete_absent cKey (fun _ => (cSalt, cIv))
    { disk := some { provider := [("openai", cRec)] }, cache := none, lastRead := 0 }
    50 "other"
    (fun doc h => by
      cases h
      decide)

/-! ## Claim C10 -/

/-- Field preservation of decryptConfig on every provider record: only
the apiKey inside options can change. -/
theorem decryptProviderRec_preserves (key : List Nat) (r : ProviderRec) :
    (decryptProviderRec key r).npm = r.npm
  ∧ (decryptProviderRec key r).name = r.name
  ∧ (decryptProviderRec key r).models = r.models
  ∧ (r.options = none → (decryptProviderRec key r).options = none)
  ∧ (∀ o2, r.options = some o2 →
      ∃ o3, (decryptProviderRec key r).options = some o3 ∧ o3.baseURL = o2.baseURL) := by
  unfold decryptProviderRec
  cases ho : r.options with
  | none => simp [ho]
  | some o2 =>
    by_cases hk : o2.apiKey = ""
    · simp [hk, ho]
    · cases hd : decryptApiKeyJS key o2.apiKey with
      | none => simp [hk, hd, ho]
      | some s =>
        by_cases hs : s = ""
        · simp [hk, hd, hs, ho]
        · simp [hk, hd, hs, ho]

/-- Claim C10: when a provider's stored apiKey fails decryption (decrypt
returns null), decryptConfig keeps that provider's record, apiKey
included, exactly as stored; the document keeps its ids and length, and
every other provider keeps every field except possibly its own apiKey,
which follows the decrypt-when-truthy rule. -/
theorem C10_decrypt_failure_preserves (key : List Nat) (cfg : ConfigDoc)
    (pid : String) (p : ProviderRec) (o : ProviderOpts)
    (hmem : (pid, p) ∈ cfg.provider)
    (hopt : p.options = some o)
    (hfail : decrypt key o.apiKey = .nullResult) :
    decryptProviderRec key p = p
  ∧ (pid, p) ∈ (decryptConfigDoc key cfg).provider
  ∧ (decryptConfigDoc key cfg).provider.length = cfg.provider.length
  ∧ ∀ q r, (q, r) ∈ cfg.provider →
      ∃ r2, (q, r2) ∈ (decryptConfigDoc key cfg).provider
        ∧ r2.npm = r.npm ∧ r2.name = r.name ∧ r2.models = r.models
        ∧ (r.options = none → r2.options = none)
        ∧ (∀ o2, r.options = some o2 →
            ∃ o3, r2.options = some o3 ∧ o3.baseURL = o2.baseURL) := by
  have hne : o.apiKey ≠ "" := by
    intro h
    rw [h] at hfail
    simp [decrypt] at hfail
  have hd : decryptApiKeyJS key o.apiKey = none := by
    unfold decryptApiKeyJS
    rw [hfail]
  have hfix : decryptProviderRec key p = p := by
    unfold decryptProviderRec
    rw [hopt]
    simp [hne, hd]
  refine ⟨hfix, ?_, ?_, ?_⟩
  · have : (pid, decryptProviderRec key p) ∈ (decryptConfigDoc key cfg).provider := by
      simp only [decryptConfigDoc]
      exact List.mem_map.mpr ⟨(pid, p), hmem, rfl⟩
    rwa [hfix] at this
  · simp [decryptConfigDoc]
  · intro q r hr
    refine ⟨decryptProviderRec key r, ?_, ?_⟩
    · simp only [decryptConfigDoc]
      exact List.mem_map.mpr ⟨(q, r), hr, rfl⟩
    · exact decryptProviderRec_preserves key r

/-- A provider options block holding a 4-part envelope that fails
decryption under the concrete key. -/
def cBrokenOpts : ProviderOpts :=
  { baseURL := "https://x.example", apiKey := "ab:cd:ef:gh" }

/-- A provider record carrying the failing envelope. -/
def cBrokenRec : ProviderRec :=
  { npm := "n", name := "broken", options := some cBrokenOpts, models := [] }

/-- A document holding the failing provider and an ordinary one. -/
def cDoc : ConfigDoc :=
  { provider := [("broken", cBrokenRec), ("openai", cRec)] }

/-- Witness for C10: the record with the failing envelope survives
decryptConfig entirely unchanged inside the two-provider document. -/
theorem C10_witness :
    decryptProviderRec cKey cBrokenRec = cBrokenRec
  ∧ ("broken", cBrokenRec) ∈ (decryptConfigDoc cKey cDoc).provider :=
  ⟨(C10_decrypt_failure_preserves cKey cDoc "broken" cBrokenRec cBrokenOpts
      (by simp [cDoc]) rfl (by decide)).1,
   (C10_decrypt_failure_preserves cKey cDoc "broken" cBrokenRec cBrokenOpts
      (by simp [cDoc]) rfl (by decide)).2.1⟩

/-! ## JSON values (parsed response bodies)

Parsed JSON as the model service sees it. JSON.parse itself is an
external primitive; responses are modelled as already parsed (or as
unparsable). Numbers are integers, which covers every value the claims
and witnesses exercise. -/

/-- Parsed JSON value. -/
inductive J where
  | null
  | bool (b : Bool)
  | num (n : Int)
  | str (s : String)
  | arr (xs : List J)
  | obj (fs : List (String × J))
deriving Repr

/-- JavaScript truthiness of a parsed value. -/
def truthy : J → Bool
  | .null => false
  | .bool b => b
  | .num n => n != 0
  | .str s => !(s == "")
  | .arr _ => true
  | .obj _ => true

/-- Property access on a parsed value: a named field of an object,
undefined otherwise. -/
def getField (v : J) (f : String) : Option J :=
  match v with
  | .obj fs => lookupA fs f
  | _ => none

/-- Truthiness of a possibly-undefined value. -/
def truthyOpt : Option J → Bool
  | some v => truthy v
  | none => false

/-- The JavaScript or-else operator over possibly-undefined values. -/
def jsOr (a b : Option J) : Option J := if truthyOpt a then a else b

/-! JSON.stringify over the parsed value model. String escaping is
elided: only the truthiness and opacity of the produced text matter to
the properties proved here. -/

mutual

/-- JSON.stringify of one value. -/
def stringifyJ : J → String
  | .null => "null"
  | .bool true => "true"
  | .bool false => "false"
  | .num n => toString n
  | .str s => "\"" ++ s ++ "\""
  | .arr xs => "[" ++ stringifyList xs ++ "]"
  | .obj fs => "\x7b" ++ stringifyFields fs ++ "\x7d"

/-- JSON.stringify of the elements of an array. -/
def stringifyList : List J → String
  | [] => ""
  | [x] => stringifyJ x
  | x :: y :: t => stringifyJ x ++ "," ++ stringifyList (y :: t)

/-- JSON.stringify of the fields of an object. -/
def stringifyFields : List (String × J) → String
  | [] => ""
  | [(k, v)] => "\"" ++ k ++ "\":" ++ stringifyJ v
  | (k, v) :: p :: t => "\"" ++ k ++ "\":" ++ stringifyJ v ++ "," ++ stringifyFields (p :: t)

end

/-! ## ModelService.normalizeURL -/

/-- Whitespace for String.prototype.trim (the ASCII subset, which
covers every input exercised here). -/
def isSpaceChar (c : Char) : Bool := c = ' ' || c = '\t' || c = '\n' || c = '\r'

/-- String.prototype.trim. -/
def trimChars (l : List Char) : List Char :=
  ((l.dropWhile isSpaceChar).reverse.dropWhile isSpaceChar).reverse

/-- Removal of one trailing slash, as the slice in normalizeURL. -/
def stripTrailingSlash (l : List Char) : List Char :=
  if l.getLast? = some '/' then l.dropLast else l

/-- String.prototype.endsWith. -/
def endsWithL (l suf : List Char) : Bool := suf.reverse.isPrefixOf l.reverse

/-- Digit test of the regular expressions in normalizeURL. -/
def isDigitChar (c : Char) : Bool := c.isDigit

/-- Test of the regular expression matching a trailing version segment,
slash v digits, at the end of the base URL. -/
def endsVersionSeg (l : List Char) : Bool :=
  let r := l.reverse
  !(r.takeWhile isDigitChar).isEmpty &&
    (match r.dropWhile isDigitChar with
     | a :: b :: _ => a == 'v' && b == '/'
     | _ => false)

/-- String.prototype.startsWith with the two-character literal slash v. -/
def startsWithSlashV (l : List Char) : Bool :=
  match l with
  | a :: b :: _ => a == '/' && b == 'v'
  | _ => false

/-- Start-of-string match of slash v followed by at least one digit. -/
def startsWithVD (l : List Char) : Bool :=
  match l with
  | a :: b :: c :: _ => a == '/' && b == 'v' && isDigitChar c
  | _ => false

/-- The replace call stripping a leading version segment from the
endpoint. -/
def stripVerSeg (l : List Char) : List Char :=
  match l with
  | a :: b :: rest =>
    if a == '/' && b == 'v' && !(rest.takeWhile isDigitChar).isEmpty
    then rest.dropWhile isDigitChar
    else a :: b :: rest
  | l2 => l2

/-- ModelService.normalizeURL: trim, strip one trailing slash, then
append the endpoint unless the base already ends with it, stripping a
duplicated version segment from the endpoint when the base ends with
one and the endpoint starts with slash v. -/
def normalizeURL (baseURL endpoint : String) : String :=
  let n := stripTrailingSlash (trimChars baseURL.data)
  if endpoint.data.isEmpty then String.mk n
  else if endsWithL n endpoint.data then String.mk n
  else if endsVersionSeg n && startsWithSlashV endpoint.data then
    String.mk (n ++ stripVerSeg endpoint.data)
  else String.mk (n ++ endpoint.data)

/-! ## Claim C7 -/

theorem startsWithVD_slashV (l : List Char) (h : startsWithVD l = true) :
    startsWithSlashV l = true := by
  match l with
  | [] => simp [startsWithVD] at h
  | [a] => simp [startsWithVD] at h
  | [a, b] => simp [startsWithVD] at h
  | a :: b :: c :: t =>
    simp only [startsWithVD, Bool.and_eq_true] at h
    simp [startsWithSlashV, h.1.1, h.1.2]

theorem startsWithVD_ne_nil (l : List Char) (h : startsWithVD l = true) : l ≠ [] := by
  match l with
  | [] => simp [startsWithVD] at h
  | a :: t => simp

/-- Claim C7 counterexample: with base http://a/v2/v3 and endpoint
/v2/v3, the base ends with a version segment and the endpoint starts
with one, yet normalizeURL returns the base unchanged (the base already
ends with the endpoint) instead of appending the version-stripped
endpoint as the claim describes. -/
theorem C7_counterexample :
    endsVersionSeg (stripTrailingSlash (trimChars ("http://a/v2/v3").data)) = true ∧
    startsWithVD ("/v2/v3").data = true ∧
    normalizeURL "http://a/v2/v3" "/v2/v3" = "http://a/v2/v3" ∧
    normalizeURL "http://a/v2/v3" "/v2/v3"
      ≠ String.mk (stripTrailingSlash (trimChars ("http://a/v2/v3").data)
          ++ stripVerSeg ("/v2/v3").data) := by
  decide

/-- Claim C7 (amended): after trimming, normalizeURL strips a single
trailing slash from the base; when the stripped base does NOT already
end with the endpoint, a base ending in a version segment and an
endpoint starting with slash v digits are joined with the duplicate
version segment stripped from the endpoint, and otherwise base and
endpoint are concatenated directly. -/
theorem C7_normalize_amended (base ep : String) :
    (startsWithVD ep.data = true →
      endsWithL (stripTrailingSlash (trimChars base.data)) ep.data = false →
      endsVersionSeg (stripTrailingSlash (trimChars base.data)) = true →
      normalizeURL base ep
        = String.mk (stripTrailingSlash (trimChars base.data) ++ stripVerSeg ep.data))
  ∧ (ep.data ≠ [] →
      endsWithL (stripTrailingSlash (trimChars base.data)) ep.data = false →
      (endsVersionSeg (stripTrailingSlash (trimChars base.data)) = false
        ∨ startsWithSlashV ep.data = false) →
      normalizeURL base ep
        = String.mk (stripTrailingSlash (trimChars base.data) ++ ep.data)) := by
  constructor
  · intro h1 h2 h3
    have hsv := startsWithVD_slashV ep.data h1
    have hne : ep.data.isEmpty = false := by
      have := startsWithVD_ne_nil ep.data h1
      simpa [List.isEmpty_iff] using this
    simp [normalizeURL, hne, h2, h3, hsv]
  · intro h1 h2 h3
    have hne : ep.data.isEmpty = false := by
      simpa [List.isEmpty_iff] using h1
    rcases h3 with h3 | h3 <;> simp [normalizeURL, hne, h2, h3]

/-- Witness for the amended C7 at the two endpoints named by the spec. -/
theorem C7_witness :
    normalizeURL "https://api.x.com/v1/" "/v1/models" = "https://api.x.com/v1/models" ∧
    normalizeURL "https://api.x.com" "/models" = "https://api.x.com/models" := by
  constructor
  · have h := (C7_normalize_amended "https://api.x.com/v1/" "/v1/models").1
      (by decide) (by decide) (by decide)
    exact h.trans (by decide)
  · have h := (C7_normalize_amended "https://api.x.com" "/models").2
      (by decide) (by decide) (Or.inl (by decide))
    exact h.trans (by decide)

/-! ## ModelService.discoverModels and tryEndpoint -/

/-- Substring test over character lists, used to state that an error
message mentions an endpoint path. -/
def containsSeq (pat : List Char) : List Char → Bool
  | [] => pat.isEmpty
  | c :: t => pat.isPrefixOf (c :: t) || containsSeq pat t

/-- Body of an upstream HTTP response: either text JSON.parse rejects,
or its parsed value. -/
inductive UpstreamBody where
  | unparsable
  | parsed (j : J)

/-- Outcome of one outbound request: a transport error or a status code
with a body. -/
inductive NetOutcome where
  | netError (msg : String)
  | response (status : Nat) (body : UpstreamBody)

/-- JavaScript property-key conversion for the id under which a
discovered model is stored; only string ids are exercised here. -/
def jsPropKey (v : J) : String :=
  match v with
  | .str s => s
  | .num n => toString n
  | .bool b => toString b
  | .null => "null"
  | .arr _ => "array"
  | .obj _ => "object"

/-- ModelService.parseModels: take the data field when truthy, else the
body itself when it is an array, else the empty list; then collect each
element's id (or name) into the model map. A truthy non-array data value
makes forEach throw, modelled as none. -/
def parseModels (j : J) : Option (List (String × String)) :=
  let dv : J :=
    match getField j "data" with
    | some d => if truthy d then d else (match j with | .arr _ => j | _ => .arr [])
    | none => (match j with | .arr _ => j | _ => .arr [])
  match dv with
  | .arr xs =>
    some (xs.foldl (fun acc m =>
      match jsOr (getField m "id") (getField m "name") with
      | some v => if truthy v then setA acc (jsPropKey v) (jsPropKey v) else acc
      | none => acc) [])
  | _ => none

/-- ModelService.tryEndpoint as a function of the response the network
returns for the normalized URL: reject on transport error, on a non-200
status, on an unparsable body, on a body whose model list cannot be
iterated, and on an empty model map; resolve otherwise. -/
def tryEndpointModel (net : String → NetOutcome) (baseURL endpoint : String) :
    Except String (List (String × String)) :=
  match net (normalizeURL baseURL endpoint) with
  | .netError m => .error m
  | .response st body =>
    if st ≠ 200 then .error ("HTTP " ++ toString st)
    else
      match body with
      | .unparsable => .error "解析失败: JSON"
      | .parsed j =>
        match parseModels j with
        | none => .error "解析失败: TypeError"
        | some ms => if ms.isEmpty then .error "未找到模型" else .ok ms

/-- The two discovery endpoints, in the order the source tries them. -/
def discoveryEndpoints : List String := ["/v1/models", "/models"]

/-- The loop of ModelService.discoverModels: first endpoint that
resolves wins; when every endpoint fails the error lists all attempted
endpoints. -/
def discoverLoop (net : String → NetOutcome) (baseURL : String) :
    List String → Except String (List (String × String))
  | [] => .error ("无法探查模型，已尝试: " ++ String.intercalate ", " discoveryEndpoints)
  | e :: rest =>
    match tryEndpointModel net baseURL e with
    | .ok ms => .ok ms
    | .error _ => discoverLoop net baseURL rest

/-- ModelService.discoverModels. -/
def discoverModels (net : String → NetOutcome) (baseURL : String) :
    Except String (List (String × String)) :=
  discoverLoop net baseURL discoveryEndpoints

/-! ## Claim C6 -/

/-- Claim C6: discovery tries the endpoint /v1/models first and returns
its models when it resolves; on any failure of that attempt (transport
error, non-200 status, parse failure or zero models) it tries /models
and returns its models when that resolves; only when both fail does it
fail, with a message mentioning both attempted endpoint paths. -/
theorem C6_discovery_fallback (net : String → NetOutcome) (baseURL : String) :
    (∀ ms, tryEndpointModel net baseURL "/v1/models" = .ok ms →
      discoverModels net baseURL = .ok ms)
  ∧ (∀ e1 ms, tryEndpointModel net baseURL "/v1/models" = .error e1 →
      tryEndpointModel net baseURL "/models" = .ok ms →
      discoverModels net baseURL = .ok ms)
  ∧ (∀ e1 e2, tryEndpointModel net baseURL "/v1/models" = .error e1 →
      tryEndpointModel net baseURL "/models" = .error e2 →
      ∃ msg, discoverModels net baseURL = .error msg
        ∧ containsSeq ("/v1/models").data msg.data = true
        ∧ containsSeq ("/models").data msg.data = true) := by
  refine ⟨?_, ?_, ?_⟩
  · intro ms h
    simp [discoverModels, discoveryEndpoints, discoverLoop, h]
  · intro e1 ms h1 h2
    simp [discoverModels, discoveryEndpoints, discoverLoop, h1, h2]
  · intro e1 e2 h1 h2
    refine ⟨"无法探查模型，已尝试: " ++ String.intercalate ", " discoveryEndpoints,
      ?_, by decide, by decide⟩
    simp [discoverModels, discoveryEndpoints, discoverLoop, h1, h2]

/-- Witness for C6: a network answering HTTP 500 everywhere makes both
attempts fail and discovery reports both endpoints. -/
theorem C6_witness :
    ∃ msg, discoverModels (fun _ => .response 500 .unparsable) "http://a" = .error msg
      ∧ containsSeq ("/v1/models").data msg.data = true
      ∧ containsSeq ("/models").data msg.data = true :=
  (C6_discovery_fallback (fun _ => .response 500 .unparsable) "http://a").2.2
    "HTTP 500" "HTTP 500" rfl rfl

/-- The or-else operator keeps a truthy left operand. -/
theorem jsOr_of_truthy (a b : Option J) (h : truthyOpt a = true) : jsOr a b = a := by
  unfold jsOr
  rw [h]
  simp

/-- The or-else operator falls through a falsy left operand. -/
theorem jsOr_of_falsy (a b : Option J) (h : truthyOpt a = false) : jsOr a b = b := by
  unfold jsOr
  rw [h]
  simp

/-! ## ModelService.extractContent and the reply of testConnection -/

/-- Index access zero, as in choices[0]: array head, object property
named 0, first character of a string. -/
def getIndexZero (v : J) : Option J :=
  match v with
  | .arr xs => xs.head?
  | .obj fs => lookupA fs "0"
  | .str s => (match s.data with | c :: _ => some (.str (String.mk [c])) | [] => none)
  | _ => none

/-- The expression data.choices?.[0]. -/
def choicesHead (d : J) : Option J :=
  match getField d "choices" with
  | none => none
  | some c => getIndexZero c

/-- Optional chaining v?.f: undefined on null or undefined, plain
property access otherwise. -/
def optChain (v : Option J) (f : String) : Option J :=
  match v with
  | none => none
  | some .null => none
  | some x => getField x f

/-- The four-step or-else chain extractContent applies to choices[0]:
message content, text, delta content, stringified message (undefined
when no message field exists, as JSON.stringify of undefined). -/
def chainOf (c : J) : Option J :=
  jsOr (optChain (getField c "message") "content")
    (jsOr (getField c "text")
      (jsOr (optChain (getField c "delta") "content")
        (match getField c "message" with
         | some m => some (.str (stringifyJ m))
         | none => none)))

/-- The top-level fallback of extractContent: response, output, result,
then null. -/
def topFields (d : J) : Option J :=
  jsOr (getField d "response")
    (jsOr (getField d "output") (jsOr (getField d "result") (some J.null)))

/-- ModelService.extractContent: the four-step chain when a truthy
choices[0] exists, the top-level fallback otherwise. -/
def extractContent (d : J) : Option J :=
  match choicesHead d with
  | some c => if truthy c then chainOf c else topFields d
  | none => topFields d

/-- The message field testConnection resolves with on a 200 response
with parsed body d: the extracted content when truthy, else the generic
connected text. -/
def testMessage (d : J) : J :=
  match extractContent d with
  | some v => if truthy v then v else .str "连接成功"
  | none => .str "连接成功"

/-- Modelled from the spec: the extraction priority exactly as claim C8
words it, a single five-step chain ending in the top-level response,
output and result fields regardless of whether choices[0] is present.
Stated only to be compared with extractContent. -/
def extractContentClaimed (d : J) : Option J :=
  let c := choicesHead d
  jsOr (optChain (match c with | some cc => getField cc "message" | none => none) "content")
    (jsOr (match c with | some cc => getField cc "text" | none => none)
      (jsOr (optChain (match c with | some cc => getField cc "delta" | none => none) "content")
        (jsOr (match c with
               | some cc =>
                 (match getField cc "message" with
                  | some m => some (.str (stringifyJ m))
                  | none => none)
               | none => none)
          (topFields d))))

/-! ## Claim C8 -/

/-- A response body with a non-empty choices array whose only element
is an empty object, next to a top-level response field. -/
def cChoicesResp : J := .obj [("choices", .arr [.obj []]), ("response", .str "hi")]

/-- A response body in the ordinary chat-completion shape. -/
def cChat : J :=
  .obj [("choices", .arr [.obj [("message", .obj [("content", .str "ok")])]])]

/-- Claim C8 counterexample: on a body with a non-empty choices array
whose element yields nothing and a top-level response field, the claimed
priority would extract the response text hi, but the code never consults
top-level fields when choices[0] exists: it extracts nothing and the
test replies with the generic connected message. -/
theorem C8_counterexample :
    extractContent cChoicesResp = none ∧
    extractContentClaimed cChoicesResp = some (J.str "hi") ∧
    extractContent cChoicesResp ≠ extractContentClaimed cChoicesResp ∧
    testMessage cChoicesResp = J.str "连接成功" := by
  refine ⟨rfl, rfl, ?_, rfl⟩
  intro h
  rw [show extractContent cChoicesResp = none from rfl,
    show extractContentClaimed cChoicesResp = some (J.str "hi") from rfl] at h
  exact Option.noConfusion h

/-- Claim C8 (amended): when a truthy choices[0] exists the reply is
extracted by the priority message content, then text, then delta
content, then the JSON stringification of the message when a message
field exists; the top-level response, output and result fields are never
consulted in that case, and when the whole chain yields nothing the test
still succeeds with the generic connected message. Top-level fields are
used exactly when no truthy choices[0] exists. -/
theorem C8_extract_priority (d c : J) (hc : choicesHead d = some c)
    (ht : truthy c = true) :
    (∀ v, optChain (getField c "message") "content" = some v → truthy v = true →
      extractContent d = some v)
  ∧ (truthyOpt (optChain (getField c "message") "content") = false →
      ∀ v, getField c "text" = some v → truthy v = true → extractContent d = some v)
  ∧ (truthyOpt (optChain (getField c "message") "content") = false →
      truthyOpt (getField c "text") = false →
      ∀ v, optChain (getField c "delta") "content" = some v → truthy v = true →
        extractContent d = some v)
  ∧ (truthyOpt (optChain (getField c "message") "content") = false →
      truthyOpt (getField c "text") = false →
      truthyOpt (optChain (getField c "delta") "content") = false →
      ∀ m, getField c "message" = some m →
        extractContent d = some (.str (stringifyJ m)))
  ∧ (truthyOpt (optChain (getField c "message") "content") = false →
      truthyOpt (getField c "text") = false →
      truthyOpt (optChain (getField c "delta") "content") = false →
      getField c "message" = none →
      extractContent d = none ∧ testMessage d = .str "连接成功")
  ∧ (∀ d2 : J, choicesHead d2 = none → extractContent d2 = topFields d2) := by
  have e1 : extractContent d = chainOf c := by
    simp [extractContent, hc, ht]
  refine ⟨?_, ?_, ?_, ?_, ?_, ?_⟩
  · intro v hv htv
    rw [e1]
    unfold chainOf
    rw [jsOr_of_truthy _ _ (by rw [hv]; simp [truthyOpt, htv]), hv]
  · intro hf v hv htv
    rw [e1]
    unfold chainOf
    rw [jsOr_of_falsy _ _ hf,
      jsOr_of_truthy _ _ (by rw [hv]; simp [truthyOpt, htv]), hv]
  · intro hf1 hf2 v hv htv
    rw [e1]
    unfold chainOf
    rw [jsOr_of_falsy _ _ hf1, jsOr_of_falsy _ _ hf2,
      jsOr_of_truthy _ _ (by rw [hv]; simp [truthyOpt, htv]), hv]
  · intro hf1 hf2 hf3 m hm
    rw [e1]
    unfold chainOf
    rw [jsOr_of_falsy _ _ hf1, jsOr_of_falsy _ _ hf2, jsOr_of_falsy _ _ hf3, hm]
  · intro hf1 hf2 hf3 hm
    have hx : extractContent d = none := by
      rw [e1]
      unfold chainOf
      rw [jsOr_of_falsy _ _ hf1, jsOr_of_falsy _ _ hf2, jsOr_of_falsy _ _ hf3, hm]
    exact ⟨hx, by simp [testMessage, hx]⟩
  · intro d2 h2
    simp [extractContent, h2]

/-- Witness for the amended C8 on an ordinary chat-completion body. -/
theorem C8_witness : extractContent cChat = some (J.str "ok") :=
  (C8_extract_priority cChat (J.obj [("message", J.obj [("content", J.str "ok")])])
    rfl rfl).1 (J.str "ok") rfl rfl

/-! ## Validator (utils/validator.js)

Field values arrive as parsed JSON values; absent fields are none. The
WHATWG URL parser behind isValidBaseURL is external and approximated by
an http or https scheme test with a non-empty remainder, which agrees
with it on every input exercised here. JavaScript string length counts
UTF-16 units; the character count used here agrees on every input
exercised (all are BMP). -/

/-- Character class of the provider id pattern: CJK, ASCII letters and
digits, underscore, hyphen. -/
def idChar (c : Char) : Bool :=
  (decide (0x4e00 ≤ c.toNat) && decide (c.toNat ≤ 0x9fa5)) || c.isAlpha || c.isDigit
    || c = '_' || c = '-'

/-- Validator.isValidProviderId. -/
def isValidProviderId (v : Option J) : Bool :=
  match v with
  | some (.str s) =>
    if s == "" then false
    else s.data.all idChar && decide (1 ≤ s.length) && decide (s.length ≤ 64)
  | _ => false

/-- Validator.isValidBaseURL. -/
def isValidBaseURL (v : Option J) : Bool :=
  match v with
  | some (.str s) =>
    if s == "" then false
    else (("http://").data.isPrefixOf s.data && decide (7 < s.length))
      || (("https://").data.isPrefixOf s.data && decide (8 < s.length))
  | _ => false

/-- Validator.isValidApiKey. -/
def isValidApiKey (v : Option J) : Bool :=
  match v with
  | some (.str s) => !(s == "") && decide (s.length ≤ 2048)
  | _ => false

/-- Validator.isValidModelId on a property key, which is always a
string. -/
def isValidModelIdStr (s : String) : Bool := !(s == "") && decide (s.length ≤ 256)

/-- The JavaScript typeof-object test (null included; the call sites
below only reach it behind a truthiness guard). -/
def isObjectType (v : J) : Bool :=
  match v with
  | .obj _ => true
  | .arr _ => true
  | .null => true
  | _ => false

/-- Index enumeration used for Object.entries of an array. -/
def enumFrom {α : Type} (i : Nat) : List α → List (Nat × α)
  | [] => []
  | a :: t => (i, a) :: enumFrom (i + 1) t

/-- Object.entries. -/
def entriesOf (v : J) : List (String × J) :=
  match v with
  | .obj fs => fs
  | .arr xs => (enumFrom 0 xs).map (fun p => (toString p.1, p.2))
  | _ => []

/-- Message pushed when the whole config is not an object. -/
def cfgObjMsg : String := "配置必须是对象"

/-- Message pushed on an invalid provider id. -/
def idErrMsg : String := "Provider ID 只能包含字母、数字、下划线和连字符，长度1-64字符"

/-- Message pushed on an over-long or non-string name. -/
def nameErrMsg : String := "Provider 名称不能超过128字符"

/-- Message pushed when options is not an object. -/
def optsObjMsg : String := "options 必须是对象"

/-- Message pushed on an invalid base URL. -/
def urlErrMsg : String := "Base URL 格式无效，必须是有效的 http/https URL"

/-- Message pushed on an invalid api key. -/
def keyErrMsg : String := "API Key 长度无效（1-2048字符）"

/-- Message pushed on an invalid model id. -/
def modelErrMsg (mid : String) : String :=
  "模型 ID \"" ++ mid ++ "\" 无效（长度1-256字符）"

/-- Message pushed on a non-object model config. -/
def modelCfgErrMsg (mid : String) : String :=
  "模型 \"" ++ mid ++ "\" 的配置必须是对象"

/-- Message pushed when models is not an object. -/
def modelsObjMsg : String := "models 必须是对象"

/-- The id errors of validateProviderConfig. -/
def errsId (config : J) : List String :=
  if isValidProviderId (getField config "providerId") then [] else [idErrMsg]

/-- The name errors of validateProviderConfig. -/
def errsName (config : J) : List String :=
  match getField config "name" with
  | some n =>
    if truthy n then
      match n with
      | .str s => if 128 < s.length then [nameErrMsg] else []
      | _ => [nameErrMsg]
    else []
  | none => []

/-- The options errors of validateProviderConfig. -/
def errsOptions (config : J) : List String :=
  match getField config "options" with
  | some o =>
    if truthy o then
      if isObjectType o then
        (match getField o "baseURL" with
         | some u => if truthy u && !(isValidBaseURL (some u)) then [urlErrMsg] else []
         | none => []) ++
        (match getField o "apiKey" with
         | some k2 => if truthy k2 && !(isValidApiKey (some k2)) then [keyErrMsg] else []
         | none => [])
      else [optsObjMsg]
    else []
  | none => []

/-- The per-entry model errors of validateProviderConfig, in entry
order. -/
def collectModelErrs : List (String × J) → List String
  | [] => []
  | (mid, mc) :: t =>
    (if isValidModelIdStr mid then [] else [modelErrMsg mid]) ++
    (if truthy mc && !(isObjectType mc) then [modelCfgErrMsg mid] else []) ++
    collectModelErrs t

/-- The models errors of validateProviderConfig. -/
def errsModels (config : J) : List String :=
  match getField config "models" with
  | some m =>
    if truthy m then
      if isObjectType m then collectModelErrs (entriesOf m) else [modelsObjMsg]
    else []
  | none => []

/-- Validator.validateProviderConfig: early return when the config is
not a truthy object, otherwise the aggregation of every field error in
push order; valid exactly when no error was collected. -/
def validateProviderConfig (config : J) : Bool × List String :=
  if !(truthy config && isObjectType config) then (false, [cfgObjMsg])
  else
    let errors := errsId config ++ errsName config ++ errsOptions config ++ errsModels config
    (errors.isEmpty, errors)

/-! ## Claim C9 -/

theorem data_append (a b : String) : (a ++ b).data = a.data ++ b.data := rfl

theorem modelErrMsg_ne_id (mid : String) : modelErrMsg mid ≠ idErrMsg := by
  intro h
  have h2 := congrArg (fun s => s.data.head?) h
  have h3 : some '模' = some 'P' := h2
  simp at h3

theorem modelErrMsg_ne_url (mid : String) : modelErrMsg mid ≠ urlErrMsg := by
  intro h
  have h2 := congrArg (fun s => s.data.head?) h
  have h3 : some '模' = some 'B' := h2
  simp at h3

theorem getField_obj (v : J) (f : String) (x : J) (h : getField v f = some x) :
    ∃ fs, v = J.obj fs := by
  cases v <;> first
    | exact ⟨_, rfl⟩
    | simp [getField] at h

theorem entriesOf_shape (m : J) (mid : String) (mdl : J)
    (h : (mid, mdl) ∈ entriesOf m) : truthy m = true ∧ isObjectType m = true := by
  cases m <;> first
    | exact ⟨rfl, rfl⟩
    | simp [entriesOf] at h

theorem collect_mem (l : List (String × J)) (mid : String) (mdl : J)
    (hmem : (mid, mdl) ∈ l) (hinv : isValidModelIdStr mid = false) :
    modelErrMsg mid ∈ collectModelErrs l := by
  induction l with
  | nil => cases hmem
  | cons p t ih =>
    rcases List.mem_cons.mp hmem with h | h
    · rw [← h]
      simp [collectModelErrs, hinv]
    · have h2 := ih h
      rcases p with ⟨k, v⟩
      simp [collectModelErrs, h2]

/-- A record failing every condition of claim C9 yet yielding only two
error messages: empty id, empty (hence falsy) baseURL, empty model id. -/
def cBadCfg : J :=
  .obj [("providerId", .str ""), ("options", .obj [("baseURL", .str "")]),
    ("models", .obj [("", .obj [])])]

/-- Claim C9 counterexample: the record has an invalid provider id, a
baseURL failing isValidBaseURL and a model id failing isValidModelId,
yet validateProviderConfig reports exactly two messages: the source
guards the baseURL check behind truthiness, so the empty invalid baseURL
produces no message and the claimed three distinct messages do not
exist. -/
theorem C9_counterexample :
    isValidProviderId (getField cBadCfg "providerId") = false ∧
    isValidBaseURL (some (J.str "")) = false ∧
    isValidModelIdStr "" = false ∧
    validateProviderConfig cBadCfg = (false, [idErrMsg, modelErrMsg ""]) ∧
    (validateProviderConfig cBadCfg).2.length = 2 := by
  decide

/-- Claim C9 (amended): a record with an invalid provider id, a TRUTHY
baseURL failing isValidBaseURL, and a model entry whose id fails
isValidModelId is reported invalid with at least the three pairwise
distinct messages for those fields, not only the first violation. -/
theorem C9_validation_aggregation (config opts u models mdl : J) (mid : String)
    (hid : isValidProviderId (getField config "providerId") = false)
    (hopt : getField config "options" = some opts)
    (hurl : getField opts "baseURL" = some u)
    (hut : truthy u = true)
    (huv : isValidBaseURL (some u) = false)
    (hmod : getField config "models" = some models)
    (hmem : (mid, mdl) ∈ entriesOf models)
    (hmv : isValidModelIdStr mid = false) :
    (validateProviderConfig config).1 = false
  ∧ idErrMsg ∈ (validateProviderConfig config).2
  ∧ urlErrMsg ∈ (validateProviderConfig config).2
  ∧ modelErrMsg mid ∈ (validateProviderConfig config).2
  ∧ idErrMsg ≠ urlErrMsg ∧ modelErrMsg mid ≠ idErrMsg ∧ modelErrMsg mid ≠ urlErrMsg := by
  obtain ⟨fs, rfl⟩ := getField_obj _ _ _ hopt
  obtain ⟨ofs, rfl⟩ := getField_obj _ _ _ hurl
  have hms := entriesOf_shape _ _ _ hmem
  have hv2 : (validateProviderConfig (J.obj fs)).2
      = errsId (J.obj fs) ++ errsName (J.obj fs) ++ errsOptions (J.obj fs)
        ++ errsModels (J.obj fs) := by
    simp [validateProviderConfig, truthy, isObjectType]
  have hmem1 : idErrMsg ∈ (validateProviderConfig (J.obj fs)).2 := by
    rw [hv2]
    have : idErrMsg ∈ errsId (J.obj fs) := by simp [errsId, hid]
    simp [this]
  have hmem2 : urlErrMsg ∈ (validateProviderConfig (J.obj fs)).2 := by
    rw [hv2]
    have : urlErrMsg ∈ errsOptions (J.obj fs) := by
      rw [errsOptions, hopt]
      show urlErrMsg ∈
        (if truthy (J.obj ofs) = true then
          if isObjectType (J.obj ofs) = true then
            (match getField (J.obj ofs) "baseURL" with
             | some u2 => if truthy u2 && !(isValidBaseURL (some u2)) then [urlErrMsg] else []
             | none => []) ++
            (match getField (J.obj ofs) "apiKey" with
             | some k2 => if truthy k2 && !(isValidApiKey (some k2)) then [keyErrMsg] else []
             | none => [])
          else [optsObjMsg]
        else [])
      rw [show truthy (J.obj ofs) = true from rfl, show isObjectType (J.obj ofs) = true from rfl]
      simp only [if_true]
      apply List.mem_append_left
      rw [hurl]
      show urlErrMsg ∈ (if truthy u && !(isValidBaseURL (some u)) then [urlErrMsg] else [])
      rw [hut, huv]
      simp
    simp [this]
  have hmem3 : modelErrMsg mid ∈ (validateProviderConfig (J.obj fs)).2 := by
    rw [hv2]
    have : modelErrMsg mid ∈ errsModels (J.obj fs) := by
      rw [errsModels, hmod]
      show modelErrMsg mid ∈
        (if truthy models = true then
          if isObjectType models = true then collectModelErrs (entriesOf models)
          else [modelsObjMsg]
        else [])
      rw [hms.1, hms.2]
      simp only [if_true]
      exact collect_mem _ _ _ hmem hmv
    simp [this]
  refine ⟨?_, hmem1, hmem2, hmem3, by decide, modelErrMsg_ne_id mid, modelErrMsg_ne_url mid⟩
  have hne : (validateProviderConfig (J.obj fs)).2 ≠ [] := by
    intro h
    rw [h] at hmem1
    cases hmem1
  have hv1 : (validateProviderConfig (J.obj fs)).1
      = (errsId (J.obj fs) ++ errsName (J.obj fs) ++ errsOptions (J.obj fs)
        ++ errsModels (J.obj fs)).isEmpty := by
    simp [validateProviderConfig, truthy, isObjectType]
  rw [hv1]
  rw [hv2] at hne
  simpa [List.isEmpty_iff] using hne

/-- Witness for the amended C9: bad id, truthy non-URL baseURL and an
empty model id give an invalid result carrying three distinct
messages. -/
theorem C9_witness :
    (validateProviderConfig (J.obj [("providerId", J.str "!!"),
      ("options", J.obj [("baseURL", J.str "not-a-url")]),
      ("models", J.obj [("", J.obj [])])])).1 = false
  ∧ idErrMsg ∈ (validateProviderConfig (J.obj [("providerId", J.str "!!"),
      ("options", J.obj [("baseURL", J.str "not-a-url")]),
      ("models", J.obj [("", J.obj [])])])).2
  ∧ urlErrMsg ∈ (validateProviderConfig (J.obj [("providerId", J.str "!!"),
      ("options", J.obj [("baseURL", J.str "not-a-url")]),
      ("models", J.obj [("", J.obj [])])])).2
  ∧ modelErrMsg "" ∈ (validateProviderConfig (J.obj [("providerId", J.str "!!"),
      ("options", J.obj [("baseURL", J.str "not-a-url")]),
      ("models", J.obj [("", J.obj [])])])).2 := by
  have h := C9_validation_aggregation
    (J.obj [("providerId", J.str "!!"),
      ("options", J.obj [("baseURL", J.str "not-a-url")]),
      ("models", J.obj [("", J.obj [])])])
    (J.obj [("baseURL", J.str "not-a-url")]) (J.str "not-a-url")
    (J.obj [("", J.obj [])]) (J.obj []) ""
    (by decide) rfl rfl rfl (by decide) rfl (by simp [entriesOf]) (by decide)
  exact ⟨h.1, h.2.1, h.2.2.1, h.2.2.2.1⟩

end OCS
